import Mathlib

set_option autoImplicit false

/-!
Verification of the pinocchio instruction-introspection sysvar reader
(`src/sdk/pinocchio/src/sysvars/instructions.rs`) and the token extension
TLV scanner (`src/programs/token/src/extensions/mod.rs`).

Buffers are modelled as `List Nat` of byte values; every read masks with
`% 256`, encoding the `u8` typing of the Rust buffers.  Zero-copy views
(`&IntrospectedInstruction`, `&IntrospectedAccountMeta`, `&Pubkey`) are
modelled by the byte offset of the referenced location inside the buffer:
a cast `&*(p as *const V)` yields the view rooted at offset `p`.
Out-of-bounds reads through raw pointers (undefined behaviour in the
source) are modelled totally by `List.getD _ _ 0`; the claims only
instantiate them within bounds.
-/

namespace Pinocchio

/-- Read one byte of the buffer; `u8` values are below 256. -/
def byteAt (d : List Nat) (i : Nat) : Nat := d.getD i 0 % 256

/-- Little-endian `u16` read at offset `i`, as in `u16::from_le(*(p as *const u16))`. -/
def readU16le (d : List Nat) (i : Nat) : Nat := byteAt d i + 256 * byteAt d (i + 1)

/-- The `n` bytes of the buffer starting at offset `i`. -/
def readBytes (d : List Nat) (i n : Nat) : List Nat :=
  (List.range n).map (fun k => byteAt d (i + k))

/-! ### Instructions sysvar reader (`sysvars/instructions.rs`) -/

/-- Byte size of `u16`, as `size_of::<u16>()` in the source. -/
def sizeU16 : Nat := 2

/-- Byte size of `Pubkey`, as `size_of::<Pubkey>()` in the source. -/
def sizePubkey : Nat := 32

/-- Byte size of `IntrospectedAccountMeta` as the source computes it:
`size_of::<IntrospectedAccountMeta>()`.  The struct holds a single raw
pointer (`pub raw: *const u8`), so its size is the 8-byte pointer size —
not the 33 bytes (`u8` flags + 32-byte key) of one serialized account-meta
record in the buffer. -/
def sizeAccountMeta : Nat := 8

/-- The only `SanitizeError` variant produced by this module. -/
inductive SanitizeError where
  | IndexOutOfBounds
deriving DecidableEq

/-- The `ProgramError` variants reachable from this module. -/
inductive ProgramError where
  | UnsupportedSysvar
  | InvalidArgument
  | InvalidInstructionData
deriving DecidableEq

/-- Rust `fn load_current_index(data: &[u8]) -> u16`: little-endian `u16`
read of the final two bytes of the sysvar data. -/
def load_current_index (d : List Nat) : Nat := readU16le d (d.length - 2)

/-- Rust `fn load_instruction_at(index, data) -> &IntrospectedInstruction`:
the returned view is the cast
`&*(data.as_ptr().add(size_of::<u16>() + index * size_of::<u16>()) as *const IntrospectedInstruction)`,
i.e. it is rooted at byte offset `2 + index * 2` of the sysvar data — the
address of the offset-table entry.  The stored table entry is never
dereferenced by the source. -/
def load_instruction_at (index : Nat) : Nat := sizeU16 + index * sizeU16

/-- Rust `fn load_instruction_at_checked(index, data)`: reads the leading
`u16` instruction count and fails with `IndexOutOfBounds` when
`index >= num_instructions`. -/
def load_instruction_at_checked (index : Nat) (d : List Nat) :
    Except SanitizeError Nat :=
  if readU16le d 0 ≤ index then Except.error SanitizeError.IndexOutOfBounds
  else Except.ok (load_instruction_at index)

/-- Lower bound of `i64`, written out: this is `-(2 ^ 63)`. -/
def I64_MIN : Int := -9223372036854775808

/-- Upper bound of `i64`, written out: this is `2 ^ 63 - 1`. -/
def I64_MAX : Int := 9223372036854775807

/-- Rust `i64::saturating_add` on in-range operands: the exact sum clamped
to the `i64` range. -/
def saturatingAddI64 (a b : Int) : Int := max I64_MIN (min I64_MAX (a + b))

/-- Rust `fn get_instruction_relative(index_relative_to_current, account)`,
after the sysvar-address check and data borrow have succeeded: the body
operating on the borrowed sysvar bytes.  `current_index` is the trailing
`u16` widened to `i64`; the relative offset is added with saturating
arithmetic; a negative resolved index gives `InvalidArgument`; otherwise
`load_instruction_at_checked` runs and its `IndexOutOfBounds` is mapped to
`InvalidArgument` (the catch-all arm mapping other `SanitizeError`s to
`InvalidInstructionData` is unreachable: no other variant is produced). -/
def get_instruction_relative (off : Int) (d : List Nat) :
    Except ProgramError Nat :=
  let current_index : Int := (load_current_index d : Int)
  let index := saturatingAddI64 current_index off
  if index < 0 then Except.error ProgramError.InvalidArgument
  else
    match load_instruction_at_checked index.toNat d with
    | Except.ok r => Except.ok r
    | Except.error SanitizeError.IndexOutOfBounds =>
        Except.error ProgramError.InvalidArgument

/-! ### IntrospectedInstruction accessors.  `r` is the view's root offset. -/

/-- The leading `u16` of the instruction record: `u16::from_le(*(self.raw as *const u16))`. -/
def account_count (d : List Nat) (r : Nat) : Nat := readU16le d r

/-- Rust `fn get_account_meta_at_unchecked(&self, index)`: view rooted at
`self.raw + size_of::<u16>() + index * size_of::<IntrospectedAccountMeta>()`,
i.e. an 8-byte stride per index, since the struct is pointer-sized. -/
def get_account_meta_at_unchecked (r index : Nat) : Nat :=
  r + (sizeU16 + index * sizeAccountMeta)

/-- Rust `fn get_account_meta_at(&self, index)`: bounds-checks `index`
against the leading `u16` account count. -/
def get_account_meta_at (d : List Nat) (r index : Nat) :
    Except SanitizeError Nat :=
  if account_count d r ≤ index then Except.error SanitizeError.IndexOutOfBounds
  else Except.ok (get_account_meta_at_unchecked r index)

/-- Rust `fn get_program_id(&self) -> &Pubkey`: view rooted at
`self.raw + size_of::<u16>() + num_accounts * size_of::<IntrospectedAccountMeta>()`
— an 8-byte stride per account, since the struct is pointer-sized. -/
def get_program_id (d : List Nat) (r : Nat) : Nat :=
  r + (sizeU16 + readU16le d r * sizeAccountMeta)

/-- Rust `fn get_data(&self) -> &[u8]`: reads the `u16` data length just
past the program-id position (computed with the same 8-byte meta stride)
and returns the slice of that many following bytes. -/
def get_data (d : List Nat) (r : Nat) : List Nat :=
  let num_accounts := readU16le d r
  let data_len :=
    readU16le d (r + (sizeU16 + num_accounts * sizeAccountMeta + sizePubkey))
  readBytes d (r + (sizeU16 + num_accounts * sizeAccountMeta + sizePubkey + sizeU16))
    data_len

/-! ### IntrospectedAccountMeta accessors.  `m` is the view's root offset. -/

/-- Source constant `IS_SIGNER_BIT`. -/
def IS_SIGNER_BIT : Nat := 0

/-- Source constant `IS_WRITABLE_BIT`. -/
def IS_WRITABLE_BIT : Nat := 1

/-- Rust `fn is_writable(&self) -> bool`: `(*self.raw & (1 << IS_WRITABLE_BIT)) != 0`. -/
def is_writable (d : List Nat) (m : Nat) : Bool :=
  Nat.land (byteAt d m) (1 <<< IS_WRITABLE_BIT) != 0

/-- Rust `fn is_signer(&self) -> bool`: `(*self.raw & (1 << IS_SIGNER_BIT)) != 0`. -/
def is_signer (d : List Nat) (m : Nat) : Bool :=
  Nat.land (byteAt d m) (1 <<< IS_SIGNER_BIT) != 0

/-- Rust `fn key(&self) -> &Pubkey`: view rooted at `self.raw + size_of::<u8>()`. -/
def key (m : Nat) : Nat := m + 1

/-- Modelled from the spec: `AccountMeta` (crate `instruction` module, not
under `src/`) is "the generic triple" of a referenced key plus the signer
and writable flags; `pubkey` holds the root offset of the referenced
32-byte key. -/
structure AccountMeta where
  pubkey : Nat
  isSigner : Bool
  isWritable : Bool
deriving DecidableEq

/-- Modelled from the spec: `AccountMeta::new(key, is_signer, is_writable)`
packs the three values into the triple. -/
def AccountMeta.new (k : Nat) (s w : Bool) : AccountMeta :=
  { pubkey := k, isSigner := s, isWritable := w }

/-- Rust `fn to_account_meta(&self) -> AccountMeta`:
`AccountMeta::new(self.key(), self.is_signer(), self.is_writable())`. -/
def to_account_meta (d : List Nat) (m : Nat) : AccountMeta :=
  AccountMeta.new (key m) (is_signer d m) (is_writable d m)

/-! ### Token extension kind table (`extensions/mod.rs`) -/

/-- Rust `enum ExtensionType`, `repr(u8)` with discriminants 0..27 in
declaration order. -/
inductive ExtensionType where
  | Uninitialized
  | TransferFeeConfig
  | TransferFeeAmount
  | MintCloseAuthority
  | ConfidentialTransferMint
  | ConfidentialTransferAccount
  | DefaultAccountState
  | ImmutableOwner
  | MemoTransfer
  | NonTransferable
  | InterestBearingConfig
  | CpiGuard
  | PermanentDelegate
  | NonTransferableAccount
  | TransferHook
  | TransferHookAccount
  | ConfidentialTransferFeeConfig
  | ConfidentialTransferFeeAmount
  | MetadataPointer
  | TokenMetadata
  | GroupPointer
  | TokenGroup
  | GroupMemberPointer
  | TokenGroupMember
  | ConfidentialMintBurn
  | ScaledUiAmount
  | Pausable
  | PausableAccount
deriving DecidableEq, Fintype

/-- The match block of `ExtensionType::from_bytes` on the decoded `u16`
value: tag values 0..27 map to the kinds in declaration order, everything
else to `None`. -/
def decodeTag (val : Nat) : Option ExtensionType :=
  match val with
  | 0 => some ExtensionType.Uninitialized
  | 1 => some ExtensionType.TransferFeeConfig
  | 2 => some ExtensionType.TransferFeeAmount
  | 3 => some ExtensionType.MintCloseAuthority
  | 4 => some ExtensionType.ConfidentialTransferMint
  | 5 => some ExtensionType.ConfidentialTransferAccount
  | 6 => some ExtensionType.DefaultAccountState
  | 7 => some ExtensionType.ImmutableOwner
  | 8 => some ExtensionType.MemoTransfer
  | 9 => some ExtensionType.NonTransferable
  | 10 => some ExtensionType.InterestBearingConfig
  | 11 => some ExtensionType.CpiGuard
  | 12 => some ExtensionType.PermanentDelegate
  | 13 => some ExtensionType.NonTransferableAccount
  | 14 => some ExtensionType.TransferHook
  | 15 => some ExtensionType.TransferHookAccount
  | 16 => some ExtensionType.ConfidentialTransferFeeConfig
  | 17 => some ExtensionType.ConfidentialTransferFeeAmount
  | 18 => some ExtensionType.MetadataPointer
  | 19 => some ExtensionType.TokenMetadata
  | 20 => some ExtensionType.GroupPointer
  | 21 => some ExtensionType.TokenGroup
  | 22 => some ExtensionType.GroupMemberPointer
  | 23 => some ExtensionType.TokenGroupMember
  | 24 => some ExtensionType.ConfidentialMintBurn
  | 25 => some ExtensionType.ScaledUiAmount
  | 26 => some ExtensionType.Pausable
  | 27 => some ExtensionType.PausableAccount
  | _ => none

/-- Rust `fn from_bytes(val: [u8; 2]) -> Option<Self>`:
`u16::from_le_bytes` of the two bytes, then the tag match. -/
def ExtensionType.from_bytes (b0 b1 : Nat) : Option ExtensionType :=
  decodeTag (b0 % 256 + 256 * (b1 % 256))

/-- The `repr(u8)` discriminant of each `ExtensionType` variant. -/
def ExtensionType.tag : ExtensionType → Nat
  | ExtensionType.Uninitialized => 0
  | ExtensionType.TransferFeeConfig => 1
  | ExtensionType.TransferFeeAmount => 2
  | ExtensionType.MintCloseAuthority => 3
  | ExtensionType.ConfidentialTransferMint => 4
  | ExtensionType.ConfidentialTransferAccount => 5
  | ExtensionType.DefaultAccountState => 6
  | ExtensionType.ImmutableOwner => 7
  | ExtensionType.MemoTransfer => 8
  | ExtensionType.NonTransferable => 9
  | ExtensionType.InterestBearingConfig => 10
  | ExtensionType.CpiGuard => 11
  | ExtensionType.PermanentDelegate => 12
  | ExtensionType.NonTransferableAccount => 13
  | ExtensionType.TransferHook => 14
  | ExtensionType.TransferHookAccount => 15
  | ExtensionType.ConfidentialTransferFeeConfig => 16
  | ExtensionType.ConfidentialTransferFeeAmount => 17
  | ExtensionType.MetadataPointer => 18
  | ExtensionType.TokenMetadata => 19
  | ExtensionType.GroupPointer => 20
  | ExtensionType.TokenGroup => 21
  | ExtensionType.GroupMemberPointer => 22
  | ExtensionType.TokenGroupMember => 23
  | ExtensionType.ConfidentialMintBurn => 24
  | ExtensionType.ScaledUiAmount => 25
  | ExtensionType.Pausable => 26
  | ExtensionType.PausableAccount => 27

/-! ### Token extension TLV scanner (`extensions/mod.rs`) -/

/-- Source constant `EXTENSIONS_PADDING`. -/
def EXTENSIONS_PADDING : Nat := 83

/-- Source constant `EXTENSION_START_OFFSET`. -/
def EXTENSION_START_OFFSET : Nat := 1

/-- Source constant `EXTENSION_LEN` (byte size of the length field). -/
def EXTENSION_LEN : Nat := 2

/-- Source constant `EXTENSION_TYPE_LEN` (byte size of the tag field). -/
def EXTENSION_TYPE_LEN : Nat := 2

/-- Outcome of `get_extension_from_bytes`.  `fault` records that a Rust
slice-indexing operation was out of range, which panics at runtime;
`fuelOut` is the marker for exhausted iteration fuel and is proved
unreachable at the fuel used by `get_extension_from_bytes`. -/
inductive ExtScan where
  | fault
  | found (payload : List Nat)
  | notFound
  | fuelOut
deriving DecidableEq

/-- Rust range indexing `&l[a..a + n]`: the slice when `a + n <= l.len()`,
otherwise `none` (the source panics there). -/
def sliceRange (l : List Nat) (a n : Nat) : Option (List Nat) :=
  if a + n ≤ l.length then some ((l.drop a).take n) else none

/-- Rust `u16::from_le_bytes` on a two-byte slice. -/
def u16FromLeBytes (b : List Nat) : Nat :=
  b.getD 0 0 % 256 + 256 * (b.getD 1 0 % 256)

/-- The `while start < end` loop of `get_extension_from_bytes`, operating
on the extension region `ext`, with explicit iteration fuel (the loop in
the source has no fuel; `scanLoop_fuel_stable` shows any fuel of at least
`ext.length - start` gives the loop's result).  Each iteration reads the
two tag bytes (slice panic if past the end), decodes them — an
undecodable tag makes the whole call return `None` via `?` —, reads the
two length bytes (slice panic if past the end), and on a tag and declared
length matching the requested kind returns the payload bytes (slice panic
if past the end); otherwise the cursor advances by `4 + length`. -/
def scanLoop (tTy : ExtensionType) (tLen : Nat) (ext : List Nat) :
    Nat → Nat → ExtScan
  | start, 0 => if start < ext.length then ExtScan.fuelOut else ExtScan.notFound
  | start, fuel + 1 =>
    if start < ext.length then
      match sliceRange ext start EXTENSION_TYPE_LEN with
      | none => ExtScan.fault
      | some tagBytes =>
        match ExtensionType.from_bytes (tagBytes.getD 0 0) (tagBytes.getD 1 0) with
        | none => ExtScan.notFound
        | some ty =>
          match sliceRange ext (start + EXTENSION_TYPE_LEN) EXTENSION_LEN with
          | none => ExtScan.fault
          | some lenBytes =>
            let extLen := u16FromLeBytes lenBytes
            if ty = tTy ∧ extLen = tLen then
              match sliceRange ext (start + EXTENSION_TYPE_LEN + EXTENSION_LEN) tLen with
              | none => ExtScan.fault
              | some payload => ExtScan.found payload
            else
              scanLoop tTy tLen ext (start + EXTENSION_TYPE_LEN + EXTENSION_LEN + extLen) fuel
    else ExtScan.notFound

/-- Rust `fn get_extension_from_bytes<T: Extension>(acc_data_bytes) -> Option<T>`.
The generic parameter `T` is represented by its associated constants:
`tTy = T::TYPE`, `tLen = T::LEN`, and `startOffset` — the region start
derived from `T::BASE_STATE` (`Mint::LEN + EXTENSIONS_PADDING +
EXTENSION_START_OFFSET` for mint-hosted kinds, `TokenAccount::LEN +
EXTENSION_START_OFFSET` for token-account-hosted kinds; the two base
lengths live in the crate's `state` module).  The leading slice
`&acc_data_bytes[startOffset..]` panics when `startOffset` exceeds the
buffer length.  The matching payload is returned by value: `from_bytes`
reinterprets the `T::LEN` payload bytes as `T`, modelled by the byte list
itself. -/
def get_extension_from_bytes (tTy : ExtensionType) (tLen : Nat)
    (startOffset : Nat) (acc_data_bytes : List Nat) : ExtScan :=
  if startOffset ≤ acc_data_bytes.length then
    let ext_bytes := acc_data_bytes.drop startOffset
    scanLoop tTy tLen ext_bytes 0 (ext_bytes.length + 1)
  else ExtScan.fault

/-! ### Specification-side model of the TLV region -/

/-- A TLV record as the spec describes it: a tag and a payload; its
declared length field is the payload's length. -/
structure ExtRecord where
  tag : Nat
  payload : List Nat
deriving DecidableEq

/-- Little-endian two-byte encoding of a `u16` value. -/
def enc16 (n : Nat) : List Nat := [n % 256, n / 256 % 256]

/-- Byte encoding of one TLV record: tag, length, payload. -/
def encodeRecord (r : ExtRecord) : List Nat :=
  enc16 r.tag ++ enc16 r.payload.length ++ r.payload

/-- Byte encoding of a whole extension region: the records packed with no
padding. -/
def encodeRegion (rs : List ExtRecord) : List Nat :=
  (rs.map encodeRecord).flatten

/-- Well-formedness of a record list: tags and payload lengths fit in a
`u16`, so their encodings round-trip. -/
def WFRegion (rs : List ExtRecord) : Prop :=
  ∀ r ∈ rs, r.tag < 65536 ∧ r.payload.length < 65536

instance (rs : List ExtRecord) : Decidable (WFRegion rs) := by
  unfold WFRegion; infer_instance

/-- Modelled from the spec: `lookup_extension<T>` "succeeds iff a record
with matching tag and matching declared length appears before the first
undecodable tag; a match occurring after a malformed record is never
found", with "first match wins" for duplicates. -/
def lookupExtensionSpec (tTy : ExtensionType) (tLen : Nat) :
    List ExtRecord → Option (List Nat)
  | [] => none
  | r :: rs =>
    match decodeTag r.tag with
    | none => none
    | some ty =>
      if ty = tTy ∧ r.payload.length = tLen then some r.payload
      else lookupExtensionSpec tTy tLen rs

/-! ### Claim evidence for the instruction view accessors -/

/-- Concrete instruction record with account count 2, followed by two
serialized 33-byte account-meta records. -/
def metaBufC2 : List Nat := [2, 0] ++ List.replicate 66 7

/-- C2: the bounds check of `get_account_meta_at` is exact — on a record
with account count 2, index 2 fails with the index error — but the
returned views advance by `size_of::<IntrospectedAccountMeta>()` = 8
bytes per index (the struct holds one raw pointer), not by the 33-byte
serialized record stride the claim states: index 1 resolves to root
offset `0 + 2 + 1 * 8 = 10`, not `0 + 2 + 1 * 33 = 35`.  The spec's data
model and the commented-out predecessor in the same source file (which
advances by `num_accounts * 33`) show the 33-byte stride is the intent. -/
theorem get_account_meta_at_stride_bug :
    get_account_meta_at metaBufC2 0 1 = Except.ok (0 + 2 + 1 * 8) ∧
    get_account_meta_at_unchecked 0 1 = 0 + 2 + 1 * 8 ∧
    (0 + 2 + 1 * 8 : Nat) ≠ 0 + 2 + 1 * 33 ∧
    get_account_meta_at metaBufC2 0 2 =
      Except.error SanitizeError.IndexOutOfBounds :=
  ⟨rfl, rfl, by decide, rfl⟩

/-- Concrete instruction record with account count 1; the bytes `[2, 0]`
sit at offsets 42..43 and the bytes `[7, 8]` at offsets 44..45. -/
def instrBufC3 : List Nat := [1, 0] ++ List.replicate 40 5 ++ [2, 0] ++ [7, 8]

/-- C3: with account count 1 the source roots the program-id view at
`root + 2 + 1 * 8 = 10` — still inside the first 33-byte serialized
account-meta record — not at `root + 2 + 1 * 33 = 35` as the claim
states, because `size_of::<IntrospectedAccountMeta>()` is the 8-byte
pointer size; the data length is likewise read at
`root + 2 + 1 * 8 + 32 = 42` rather than `root + 2 + 1 * 33 + 32 = 67`,
and the returned data slice holds the bytes right after that length
field. -/
theorem get_program_id_stride_bug :
    get_program_id instrBufC3 0 = 0 + 2 + 1 * 8 ∧
    (0 + 2 + 1 * 8 : Nat) ≠ 0 + 2 + 1 * 33 ∧
    readU16le instrBufC3 (0 + 2 + 1 * 8 + 32) = 2 ∧
    get_data instrBufC3 0 = [7, 8] ∧
    (0 + 2 + 1 * 8 + 32 : Nat) ≠ 0 + 2 + 1 * 33 + 32 :=
  ⟨by decide, by decide, by decide, by decide, by decide⟩

set_option maxRecDepth 8192 in
/-- C9: `is_signer` is bit 0 of the flags byte at the view's root,
`is_writable` is bit 1 of the same byte, `key` is the view of the 32 bytes
following the flags byte, and `to_account_meta` packs exactly those three
values. -/
theorem account_meta_view_correct (d : List Nat) (m : Nat) :
    is_signer d m = (byteAt d m).testBit 0 ∧
    is_writable d m = (byteAt d m).testBit 1 ∧
    key m = m + 1 ∧
    to_account_meta d m =
      { pubkey := m + 1, isSigner := (byteAt d m).testBit 0,
        isWritable := (byteAt d m).testBit 1 } := by
  have hb : byteAt d m < 256 := Nat.mod_lt _ (by norm_num)
  have h0 : ∀ b, b < 256 →
      ((Nat.land b (1 <<< IS_SIGNER_BIT) != 0) = b.testBit 0) := by decide
  have h1 : ∀ b, b < 256 →
      ((Nat.land b (1 <<< IS_WRITABLE_BIT) != 0) = b.testBit 1) := by decide
  have hs : is_signer d m = (byteAt d m).testBit 0 := h0 _ hb
  have hw : is_writable d m = (byteAt d m).testBit 1 := h1 _ hb
  refine ⟨hs, hw, rfl, ?_⟩
  simp [to_account_meta, AccountMeta.new, key, hs, hw]

/-- C9 witness: a flags byte of 2 is writable but not a signer, and the
projected triple reports exactly that at key offset 1. -/
theorem account_meta_view_correct_witness :
    to_account_meta [2] 0 =
      { pubkey := 0 + 1, isSigner := (byteAt [2] 0).testBit 0,
        isWritable := (byteAt [2] 0).testBit 1 } ∧
    (byteAt [2] 0).testBit 0 = false ∧ (byteAt [2] 0).testBit 1 = true :=
  ⟨(account_meta_view_correct [2] 0).2.2.2, by decide, by decide⟩

/-! ### Claim theorem for the extension-kind table -/

/-- C8: the tag match of `ExtensionType::from_bytes` succeeds exactly on
the `u16` values 0 through 27; decoding then taking the variant's
discriminant is the identity on those values, taking a variant's
discriminant then decoding returns that same variant, and `from_bytes`
itself is the tag match applied to the little-endian value of its two
bytes. -/
theorem extension_type_tag_roundtrip :
    (∀ v : Nat, v < 28 → ∃ t, decodeTag v = some t) ∧
    (∀ v : Nat, 28 ≤ v → decodeTag v = none) ∧
    (∀ (v : Nat) (t : ExtensionType), decodeTag v = some t →
      ExtensionType.tag t = v) ∧
    (∀ t : ExtensionType, decodeTag (ExtensionType.tag t) = some t) ∧
    (∀ b0 b1 : Nat, ExtensionType.from_bytes b0 b1 =
      decodeTag (b0 % 256 + 256 * (b1 % 256))) := by
  have hge : ∀ v : Nat, 28 ≤ v → decodeTag v = none := by
    intro v hv
    obtain ⟨k, rfl⟩ : ∃ k, v = k + 28 := ⟨v - 28, by omega⟩
    rfl
  have hlt : ∀ v : Nat, v < 28 → ∀ t : ExtensionType,
      decodeTag v = some t → ExtensionType.tag t = v := by decide
  refine ⟨by decide, hge, ?_, by decide, fun b0 b1 => rfl⟩
  intro v t h
  rcases Nat.lt_or_ge v 28 with hv | hv
  · exact hlt v hv t h
  · rw [hge v hv] at h
    exact absurd h (by simp)

/-- C8 witness: tag value 5 decodes to `ConfidentialTransferAccount`,
whose discriminant is 5 again, and tag value 30 decodes to nothing. -/
theorem extension_type_tag_roundtrip_witness :
    decodeTag 30 = none ∧
    decodeTag (ExtensionType.tag ExtensionType.ConfidentialTransferAccount) =
      some ExtensionType.ConfidentialTransferAccount ∧
    ExtensionType.from_bytes 5 0 = decodeTag (5 % 256 + 256 * (0 % 256)) :=
  ⟨extension_type_tag_roundtrip.2.1 30 (by decide),
    extension_type_tag_roundtrip.2.2.2.1 ExtensionType.ConfidentialTransferAccount,
    extension_type_tag_roundtrip.2.2.2.2 5 0⟩

/-! ### Claim evidence for the sysvar reader -/

/-- Concrete one-instruction sysvar buffer: count 1, offset-table entry
storing byte offset 4, at offset 4 an instruction record with zero
accounts, a 32-byte program id and empty data, and trailing current index
0. -/
def instrBufC1 : List Nat :=
  [1, 0, 4, 0] ++ ([0, 0] ++ List.replicate 32 0 ++ [0, 0]) ++ [0, 0]

/-- C1: on `instrBufC1` the offset table stores byte offset 4, yet
`get_instruction_relative 0` returns the view rooted at offset 2 — the
position of the offset-table entry itself — because `load_instruction_at`
casts the table-entry address to the view without dereferencing the
stored offset. -/
theorem instruction_view_rooted_at_table_entry :
    get_instruction_relative 0 instrBufC1 = Except.ok 2 ∧
    readU16le instrBufC1 2 = 4 ∧ (2 : Nat) ≠ 4 :=
  ⟨rfl, by decide, by decide⟩

/-- C7: over any sysvar buffer of length at least 2 and any `i64` relative
offset, with `target` the saturating `i64` sum of the trailing current
index and the offset: a negative `target` yields `InvalidArgument`, a
`target` at least the leading `u16` instruction count yields
`InvalidArgument`, and in either failure case the result depends only on
the buffer's length, its leading count `u16` and its trailing index `u16`
— no instruction-record memory is read. -/
theorem get_instruction_relative_error_cases (d : List Nat) (off : Int)
    (hlen : 2 ≤ d.length) (hlo : I64_MIN ≤ off) (hhi : off ≤ I64_MAX) :
    (saturatingAddI64 (load_current_index d) off < 0 →
      get_instruction_relative off d =
        Except.error ProgramError.InvalidArgument) ∧
    ((readU16le d 0 : Int) ≤ saturatingAddI64 (load_current_index d) off →
      get_instruction_relative off d =
        Except.error ProgramError.InvalidArgument) ∧
    (∀ d' : List Nat, d'.length = d.length →
      readU16le d' 0 = readU16le d 0 →
      load_current_index d' = load_current_index d →
      (saturatingAddI64 (load_current_index d) off < 0 ∨
        (readU16le d 0 : Int) ≤ saturatingAddI64 (load_current_index d) off) →
      get_instruction_relative off d' = get_instruction_relative off d) := by
  have key_case : ∀ e : List Nat,
      load_current_index e = load_current_index d →
      readU16le e 0 = readU16le d 0 →
      (saturatingAddI64 (load_current_index d) off < 0 ∨
        (readU16le d 0 : Int) ≤ saturatingAddI64 (load_current_index d) off) →
      get_instruction_relative off e =
        Except.error ProgramError.InvalidArgument := by
    intro e hcur hcount hcase
    unfold get_instruction_relative load_instruction_at_checked
    simp only [hcur, hcount]
    rcases Int.lt_or_le (saturatingAddI64 (load_current_index d) off) 0 with
      hneg | hpos
    · rw [if_pos hneg]
    · have hge : (readU16le d 0 : Int) ≤
          saturatingAddI64 (load_current_index d) off := by
        rcases hcase with h | h
        · omega
        · exact h
      have hcnt : readU16le d 0 ≤
          (saturatingAddI64 (load_current_index d) off).toNat := by omega
      rw [if_neg (by omega), if_pos hcnt]
  refine ⟨fun h => key_case d rfl rfl (Or.inl h),
    fun h => key_case d rfl rfl (Or.inr h), ?_⟩
  intro d' hl hc hcur hcase
  rw [key_case d' hcur hc hcase, key_case d rfl rfl hcase]

/-- C7 witness: a count-0 buffer with current index 0: the offset −1
resolves to a negative target and offset 0 resolves at or past the count;
both fail with `InvalidArgument`, and a buffer with the same length, count
and current index but different interior gives the same result. -/
theorem get_instruction_relative_error_cases_witness :
    get_instruction_relative (-1) [0, 0, 0, 0] =
      Except.error ProgramError.InvalidArgument ∧
    get_instruction_relative 0 [0, 0, 0, 0] =
      Except.error ProgramError.InvalidArgument ∧
    get_instruction_relative 0 [0, 0, 0, 0] =
      get_instruction_relative 0 [0, 0, 0, 0] :=
  ⟨(get_instruction_relative_error_cases [0, 0, 0, 0] (-1) (by decide)
      (by decide) (by decide)).1 (by decide),
    (get_instruction_relative_error_cases [0, 0, 0, 0] 0 (by decide)
      (by decide) (by decide)).2.1 (by decide),
    (get_instruction_relative_error_cases [0, 0, 0, 0] 0 (by decide)
      (by decide) (by decide)).2.2 [0, 0, 0, 0] (by decide) (by decide)
      (by decide) (Or.inr (by decide))⟩

/-! ### Claim evidence for the TLV scanner fault paths -/

/-- Empty account buffer: shorter than any positive region start offset. -/
def shortBufC5 : List Nat := []

/-- C5: on a buffer strictly shorter than the extension-region start
offset (here offset 166, the mint-hosted start `82 + 83 + 1`, against the
empty buffer), the leading slice `&acc_data_bytes[start..]` is out of
range and the source panics (`fault`) instead of returning the not-found
result. -/
theorem scanner_faults_on_short_buffer :
    get_extension_from_bytes ExtensionType.MintCloseAuthority 32 166
      shortBufC5 = ExtScan.fault ∧
    ExtScan.fault ≠ ExtScan.notFound :=
  ⟨rfl, by decide⟩

/-- Account buffer whose extension region is a single byte. -/
def truncatedBufC4 : List Nat := List.replicate 167 0

set_option maxRecDepth 8192 in
/-- C4: on a buffer whose extension region holds one byte, the two-byte
tag-header slice `&ext_bytes[0..2]` is out of range and the source panics
(`fault`) instead of rejecting the read and returning the not-found
result. -/
theorem scanner_faults_on_truncated_header :
    get_extension_from_bytes ExtensionType.MintCloseAuthority 32 166
      truncatedBufC4 = ExtScan.fault ∧
    ExtScan.fault ≠ ExtScan.notFound :=
  ⟨rfl, by decide⟩

/-! ### Termination of the TLV scan loop -/

theorem scanLoop_stable (tTy : ExtensionType) (tLen : Nat) (ext : List Nat) :
    ∀ f₁ f₂ start, ext.length - start ≤ f₁ → ext.length - start ≤ f₂ →
      scanLoop tTy tLen ext start f₁ = scanLoop tTy tLen ext start f₂ := by
  intro f₁
  induction f₁ with
  | zero =>
    intro f₂ start h1 h2
    have hs : ¬ start < ext.length := by omega
    cases f₂ with
    | zero => rfl
    | succ g => simp [scanLoop, hs]
  | succ f ih =>
    intro f₂ start h1 h2
    cases f₂ with
    | zero =>
      have hs : ¬ start < ext.length := by omega
      simp [scanLoop, hs]
    | succ g =>
      by_cases hs : start < ext.length
      · simp only [scanLoop, if_pos hs]
        cases htag : sliceRange ext start EXTENSION_TYPE_LEN with
        | none => rfl
        | some tagBytes =>
          dsimp only
          cases hty : ExtensionType.from_bytes (tagBytes.getD 0 0)
              (tagBytes.getD 1 0) with
          | none => rfl
          | some ty =>
            dsimp only
            cases hlenb : sliceRange ext (start + EXTENSION_TYPE_LEN)
                EXTENSION_LEN with
            | none => rfl
            | some lenBytes =>
              dsimp only
              by_cases hm : ty = tTy ∧ u16FromLeBytes lenBytes = tLen
              · rw [if_pos hm, if_pos hm]
              · rw [if_neg hm, if_neg hm]
                exact ih g _ (by simp only [EXTENSION_TYPE_LEN, EXTENSION_LEN]; omega)
                  (by simp only [EXTENSION_TYPE_LEN, EXTENSION_LEN]; omega)
      · simp [scanLoop, hs]

theorem scanLoop_no_fuelOut (tTy : ExtensionType) (tLen : Nat) (ext : List Nat) :
    ∀ fuel start, ext.length - start ≤ fuel →
      scanLoop tTy tLen ext start fuel ≠ ExtScan.fuelOut := by
  intro fuel
  induction fuel with
  | zero =>
    intro start h
    have hs : ¬ start < ext.length := by omega
    simp [scanLoop, hs]
  | succ f ih =>
    intro start h
    by_cases hs : start < ext.length
    · simp only [scanLoop, if_pos hs]
      cases htag : sliceRange ext start EXTENSION_TYPE_LEN with
      | none => simp
      | some tagBytes =>
        dsimp only
        cases hty : ExtensionType.from_bytes (tagBytes.getD 0 0)
            (tagBytes.getD 1 0) with
        | none => simp
        | some ty =>
          dsimp only
          cases hlenb : sliceRange ext (start + EXTENSION_TYPE_LEN)
              EXTENSION_LEN with
          | none => simp
          | some lenBytes =>
            dsimp only
            by_cases hm : ty = tTy ∧ u16FromLeBytes lenBytes = tLen
            · rw [if_pos hm]
              cases sliceRange ext (start + EXTENSION_TYPE_LEN + EXTENSION_LEN)
                  tLen <;> simp
            · rw [if_neg hm]
              exact ih _ (by simp only [EXTENSION_TYPE_LEN, EXTENSION_LEN]; omega)
    · simp [scanLoop, hs]

/-- C10: the scan loop is a total function of the buffer: any iteration
fuel of at least the region length remaining past the cursor yields one
and the same result (each iteration advances the cursor by
`4 + length ≥ 4` bytes, so at most that many iterations happen), and the
fuel marker is never reached — in particular `get_extension_from_bytes`,
which runs the loop with fuel `region length + 1`, computes the loop's
stable result. -/
theorem scanLoop_terminates (tTy : ExtensionType) (tLen : Nat)
    (ext : List Nat) (start f₁ f₂ : Nat)
    (h1 : ext.length - start ≤ f₁) (h2 : ext.length - start ≤ f₂) :
    scanLoop tTy tLen ext start f₁ = scanLoop tTy tLen ext start f₂ ∧
    scanLoop tTy tLen ext start f₁ ≠ ExtScan.fuelOut :=
  ⟨scanLoop_stable tTy tLen ext f₁ f₂ start h1 h2,
    scanLoop_no_fuelOut tTy tLen ext f₁ start h1⟩

/-- C10 witness: a four-byte region scanned with fuels 4 and 9 gives the
same non-fuelOut result. -/
theorem scanLoop_terminates_witness :
    scanLoop ExtensionType.MintCloseAuthority 32 [0, 0, 0, 0] 0 4 =
      scanLoop ExtensionType.MintCloseAuthority 32 [0, 0, 0, 0] 0 9 ∧
    scanLoop ExtensionType.MintCloseAuthority 32 [0, 0, 0, 0] 0 4 ≠
      ExtScan.fuelOut :=
  scanLoop_terminates ExtensionType.MintCloseAuthority 32 [0, 0, 0, 0] 0 4 9
    (by decide) (by decide)

/-! ### Correspondence of the scanner with the spec lookup on well-formed regions -/

theorem sliceRange_prefix_mid (u v w : List Nat) :
    sliceRange (u ++ v ++ w) u.length v.length = some v := by
  have hlen : u.length + v.length ≤ (u ++ v ++ w).length := by
    simp [List.length_append]
  have hdrop : (u ++ v ++ w).drop u.length = v ++ w := by
    rw [List.append_assoc, List.drop_left]
  simp only [sliceRange, if_pos hlen, hdrop, List.take_left]

theorem sliceRange_first (v w : List Nat) :
    sliceRange (v ++ w) 0 v.length = some v := by
  have h := sliceRange_prefix_mid [] v w
  simpa using h

theorem sliceRange_append (pre suf : List Nat) (k n : Nat) :
    sliceRange (pre ++ suf) (pre.length + k) n = sliceRange suf k n := by
  have hdrop : (pre ++ suf).drop (pre.length + k) = suf.drop k := by
    rw [← List.drop_drop, List.drop_left]
  simp only [sliceRange, List.length_append, hdrop, Nat.add_assoc,
    Nat.add_le_add_iff_left]

theorem scanLoop_append (tTy : ExtensionType) (tLen : Nat) (pre suf : List Nat) :
    ∀ fuel k, scanLoop tTy tLen (pre ++ suf) (pre.length + k) fuel =
      scanLoop tTy tLen suf k fuel := by
  intro fuel
  induction fuel with
  | zero =>
    intro k
    simp [scanLoop, List.length_append, Nat.add_lt_add_iff_left]
  | succ f ih =>
    intro k
    by_cases hk : k < suf.length
    · have hk2 : pre.length + k < (pre ++ suf).length := by
        simp only [List.length_append]; omega
      simp only [scanLoop, if_pos hk, if_pos hk2, Nat.add_assoc,
        sliceRange_append, ih]
    · have hk2 : ¬ pre.length + k < (pre ++ suf).length := by
        simp only [List.length_append]; omega
      simp only [scanLoop, if_neg hk, if_neg hk2]

theorem u16FromLeBytes_enc16 (n : Nat) (h : n < 65536) :
    u16FromLeBytes (enc16 n) = n := by
  simp [u16FromLeBytes, enc16]
  omega

theorem from_bytes_enc16 (t : Nat) (h : t < 65536) :
    ExtensionType.from_bytes ((enc16 t).getD 0 0) ((enc16 t).getD 1 0) =
      decodeTag t := by
  have e : (enc16 t).getD 0 0 % 256 + 256 * ((enc16 t).getD 1 0 % 256) = t := by
    simp [enc16]
    omega
  unfold ExtensionType.from_bytes
  rw [e]

theorem encodeRegion_cons (r : ExtRecord) (rs : List ExtRecord) :
    encodeRegion (r :: rs) = encodeRecord r ++ encodeRegion rs := by
  simp [encodeRegion]

theorem encodeRecord_length (r : ExtRecord) :
    (encodeRecord r).length = 4 + r.payload.length := by
  simp only [encodeRecord, List.length_append, enc16, List.length_cons,
    List.length_nil]

theorem length_le_encodeRegion (rs : List ExtRecord) :
    rs.length ≤ (encodeRegion rs).length := by
  induction rs with
  | nil => simp [encodeRegion]
  | cons r rs ih =>
    rw [encodeRegion_cons]
    simp only [List.length_append, List.length_cons, encodeRecord_length]
    omega

theorem scanLoop_encode (tTy : ExtensionType) (tLen : Nat) :
    ∀ (rs : List ExtRecord) (fuel : Nat), WFRegion rs → rs.length ≤ fuel →
      scanLoop tTy tLen (encodeRegion rs) 0 fuel =
        (match lookupExtensionSpec tTy tLen rs with
          | some p => ExtScan.found p
          | none => ExtScan.notFound) := by
  intro rs
  induction rs with
  | nil =>
    intro fuel _ _
    cases fuel <;> simp [scanLoop, encodeRegion, lookupExtensionSpec]
  | cons r rs ih =>
    intro fuel hwf hfuel
    cases fuel with
    | zero => simp at hfuel
    | succ f =>
      have hhead := hwf r (by simp)
      have htagw : r.tag < 65536 := hhead.1
      have hplw : r.payload.length < 65536 := hhead.2
      rw [encodeRegion_cons]
      have h1 : sliceRange (encodeRecord r ++ encodeRegion rs) 0
          EXTENSION_TYPE_LEN = some (enc16 r.tag) := by
        have h := sliceRange_first (enc16 r.tag)
            (enc16 r.payload.length ++ (r.payload ++ encodeRegion rs))
        have e : enc16 r.tag ++
            (enc16 r.payload.length ++ (r.payload ++ encodeRegion rs)) =
            encodeRecord r ++ encodeRegion rs := by
          simp [encodeRecord, List.append_assoc]
        rw [e] at h
        simpa [EXTENSION_TYPE_LEN, enc16] using h
      have h2 : sliceRange (encodeRecord r ++ encodeRegion rs)
          EXTENSION_TYPE_LEN EXTENSION_LEN = some (enc16 r.payload.length) := by
        have h := sliceRange_prefix_mid (enc16 r.tag) (enc16 r.payload.length)
            (r.payload ++ encodeRegion rs)
        have e : (enc16 r.tag ++ enc16 r.payload.length) ++
            (r.payload ++ encodeRegion rs) =
            encodeRecord r ++ encodeRegion rs := by
          simp [encodeRecord, List.append_assoc]
        rw [e] at h
        simpa [EXTENSION_TYPE_LEN, EXTENSION_LEN, enc16] using h
      have h3 : sliceRange (encodeRecord r ++ encodeRegion rs)
          (EXTENSION_TYPE_LEN + EXTENSION_LEN) r.payload.length =
          some r.payload := by
        have h := sliceRange_prefix_mid (enc16 r.tag ++ enc16 r.payload.length)
            r.payload (encodeRegion rs)
        have e : (enc16 r.tag ++ enc16 r.payload.length) ++ r.payload ++
            encodeRegion rs = encodeRecord r ++ encodeRegion rs := by
          simp [encodeRecord, List.append_assoc]
        rw [e] at h
        simpa [EXTENSION_TYPE_LEN, EXTENSION_LEN, enc16] using h
      have hpos : 0 < (encodeRecord r ++ encodeRegion rs).length := by
        simp only [List.length_append, encodeRecord_length]
        omega
      simp only [scanLoop, if_pos hpos, Nat.zero_add, lookupExtensionSpec]
      rw [h1]
      dsimp only
      rw [from_bytes_enc16 r.tag htagw]
      cases hdec : decodeTag r.tag with
      | none => rfl
      | some ty =>
        dsimp only
        rw [h2]
        dsimp only
        rw [u16FromLeBytes_enc16 r.payload.length hplw]
        by_cases hm : ty = tTy ∧ r.payload.length = tLen
        · rw [if_pos hm, if_pos hm, ← hm.2, h3]
        · rw [if_neg hm, if_neg hm]
          have hstep : EXTENSION_TYPE_LEN + EXTENSION_LEN + r.payload.length =
              (encodeRecord r).length + 0 := by
            simp only [EXTENSION_TYPE_LEN, EXTENSION_LEN, encodeRecord_length]
            omega
          rw [hstep, scanLoop_append]
          exact ih f (fun x hx => hwf x (by simp [hx])) (by simp at hfuel; omega)

/-- C6: on any buffer made of an arbitrary base prefix followed by the
byte encoding of a well-formed record list, the scanner computes exactly
the spec-side lookup: the payload of the first record whose decoded kind
and declared length match the requested kind, provided it appears before
the first record with an undecodable tag, and the not-found result
otherwise — in particular the scan stops with not-found at the first
undecodable tag, so a later match is never found, and earlier duplicates
shadow later ones. -/
theorem get_extension_from_bytes_encode (tTy : ExtensionType) (tLen : Nat)
    (base : List Nat) (rs : List ExtRecord) (hwf : WFRegion rs) :
    get_extension_from_bytes tTy tLen base.length (base ++ encodeRegion rs) =
      (match lookupExtensionSpec tTy tLen rs with
        | some p => ExtScan.found p
        | none => ExtScan.notFound) := by
  unfold get_extension_from_bytes
  rw [if_pos (by simp), List.drop_left]
  exact scanLoop_encode tTy tLen rs _ hwf
    (by have := length_le_encodeRegion rs; omega)

/-- C6 witness: a single transfer-fee record with tag 1 and declared
length 2 is found with its payload on an empty base prefix. -/
theorem get_extension_from_bytes_encode_witness :
    get_extension_from_bytes ExtensionType.TransferFeeConfig 2
      (List.length ([] : List Nat)) ([] ++ encodeRegion [⟨1, [7, 7]⟩]) =
      ExtScan.found [7, 7] :=
  (get_extension_from_bytes_encode ExtensionType.TransferFeeConfig 2 []
      [⟨1, [7, 7]⟩] (by decide)).trans (by rfl)

end Pinocchio
